import Mathlib

/-!
Shallow embedding of the decision/fusion core of `src/ocr.py`.

Machine floats of the Python source are modelled as exact rationals (`ℚ`);
all constants and comparisons in scope involve short decimal literals, where
the two semantics agree.  Python strings are modelled as Lean `String`
(a list of unicode scalar characters).  The text-recognition model and the
image pipeline are external collaborators in the source and are modelled as
an injected oracle mapping (rotation, source variant) to a recognized
`(text, confidence)` sample, exactly the shape `ocr_once` returns after
`rotate_gray`/`enhance_for_ocr`.
-/

namespace OcrCore

/-- `SCORE_THRESHOLD = 0.70` from the source. -/
def SCORE_THRESHOLD : ℚ := 0.70

/-- `ROTATIONS = [0, 90, -90, 180]` from the source. -/
def ROTATIONS : List ℤ := [0, 90, -90, 180]

/-- `ANGLE_LIMIT_ABS = 100.0` from the source. -/
def ANGLE_LIMIT_ABS : ℚ := 100.0

/-- `TEMP_MAX = 80.0` from the source. -/
def TEMP_MAX : ℚ := 80.0

/-- Characters removed by Python `str.strip()` (ASCII whitespace). -/
def isPySpace (c : Char) : Bool :=
  c = ' ' || c = '\t' || c = '\n' || c = '\r' || c = Char.ofNat 11 || c = Char.ofNat 12

/-- Python `s.strip()`. -/
def pyStrip (l : List Char) : List Char :=
  ((l.dropWhile isPySpace).reverse.dropWhile isPySpace).reverse

/-- Python `s.replace(" ", "")`. -/
def stripSpaces (l : List Char) : List Char := l.filter (fun c => c ≠ ' ')

/-- Python `str.lower()` on the Basic Latin and Latin-1 Supplement ranges
(the ranges exercised by the source: ASCII letters and the `Â` of the
degree-glyph literal).  Characters outside those ranges are kept. -/
def pyLowerChar (c : Char) : Char :=
  if 65 ≤ c.toNat ∧ c.toNat ≤ 90 then Char.ofNat (c.toNat + 32)
  else if 0xC0 ≤ c.toNat ∧ c.toNat ≤ 0xDE ∧ c.toNat ≠ 0xD7 then Char.ofNat (c.toNat + 32)
  else c

/-- Value of a digit string, `int("d₁…dₙ")`. -/
def digitsToNat (l : List Char) : Nat := l.foldl (fun a c => a * 10 + (c.toNat - 48)) 0

/-- Match of `\d+(\.\d+)?` anchored at the start of `l` (greedy, as the
`re` module matches it); `none` when `l` does not start with a digit. -/
def matchUnsigned (l : List Char) : Option (List Char) :=
  let ds := l.takeWhile Char.isDigit
  if ds.isEmpty then none
  else
    match l.dropWhile Char.isDigit with
    | '.' :: r =>
      let fs := r.takeWhile Char.isDigit
      if fs.isEmpty then some ds else some (ds ++ '.' :: fs)
    | _ => some ds

/-- Match of `[+-]?\d+(\.\d+)?` anchored at the start of `l`. -/
def matchNumAt (l : List Char) : Option (List Char) :=
  match l with
  | [] => none
  | c :: rest =>
    if c = '+' || c = '-' then
      match rest with
      | d :: _ => if d.isDigit then (matchUnsigned rest).map (fun m => c :: m) else none
      | [] => none
    else matchUnsigned l

/-- Leftmost match of `[+-]?\d+(\.\d+)?`, as `re.search` finds it. -/
def searchNum : List Char → Option (List Char)
  | [] => none
  | c :: rest =>
    match matchNumAt (c :: rest) with
    | some m => some m
    | none => searchNum rest

/-- `extract_num_str` from the source: on non-empty text, strip spaces and
return the first `[+-]?\d+(\.\d+)?` match. -/
def extract_num_str (txt : String) : Option String :=
  if txt.data.isEmpty then none
  else (searchNum (stripSpaces txt.data)).map (fun l => String.mk l)

/-- `sign_first` from the source: space-stripped text starts with `+` or `-`
immediately followed by a digit. -/
def sign_first (txt : String) : Bool :=
  match stripSpaces txt.data with
  | c :: d :: _ => (c = '+' || c = '-') && d.isDigit
  | _ => false

/-- The two-character literal of `has_temp_hint` in the source:
`U+00C2` (`Â`) followed by `U+00B0` (`°`), byte-for-byte from the file. -/
def degreeGlyph : List Char := [Char.ofNat 0xC2, Char.ofNat 0xB0]

/-- `has_temp_hint` from the source: lowercase the text, then test for the
letter `c` or the `degreeGlyph` character sequence. -/
def has_temp_hint (txt : String) : Bool :=
  (txt.data.map pyLowerChar).contains 'c' ||
    decide (degreeGlyph <:+: txt.data.map pyLowerChar)

/-- `has_depth_hint` from the source: lowercased text contains `m`. -/
def has_depth_hint (txt : String) : Bool :=
  (txt.data.map pyLowerChar).contains 'm'

/-- Core of Python `float(...)` on unsigned decimal literals:
`digits`, `digits.`, `digits.digits` or `.digits`; `none` otherwise.
Exponent and other float syntaxes never occur in scope. -/
def parsePyFloatCore (l : List Char) : Option ℚ :=
  let ip := l.takeWhile Char.isDigit
  let rest := l.dropWhile Char.isDigit
  if rest.isEmpty then
    if ip.isEmpty then none else some (digitsToNat ip)
  else if rest.head? = some '.' && (rest.drop 1).all Char.isDigit
      && !(ip.isEmpty && (rest.drop 1).isEmpty) then
    some ((digitsToNat ip : ℚ) + (digitsToNat (rest.drop 1) : ℚ) / (10 : ℚ) ^ (rest.drop 1).length)
  else none

/-- Python `float(...)` on optionally signed decimal literals. -/
def parsePyFloat (l : List Char) : Option ℚ :=
  match l with
  | [] => none
  | c :: rest =>
    if c = '+' then parsePyFloatCore rest
    else if c = '-' then (parsePyFloatCore rest).map Neg.neg
    else parsePyFloatCore l

/-- `normalize_angle` from the source: strip spaces, default a `+` sign,
parse as float, reject when the parse fails or `|v| > ANGLE_LIMIT_ABS`,
otherwise return the signed string itself. -/
def normalize_angle (num_str : String) : Option String :=
  if num_str.data.isEmpty then none
  else
    let s := stripSpaces num_str.data
    let s := if s.head? = some '+' || s.head? = some '-' then s else '+' :: s
    match parsePyFloat s with
    | none => none
    | some v => if |v| > ANGLE_LIMIT_ABS then none else some (String.mk s)

/-- Strip one leading `+`/`-`, as `s[1:]` after `s.startswith(("+", "-"))`. -/
def stripSign (l : List Char) : List Char :=
  match l with
  | c :: rest => if c = '+' || c = '-' then rest else c :: rest
  | [] => []

/-- Full match of `^\d+(\.\d+)?$`. -/
def digitsDotShape (l : List Char) : Bool :=
  let ds := l.takeWhile Char.isDigit
  let rest := l.dropWhile Char.isDigit
  !ds.isEmpty &&
    (rest.isEmpty ||
      (rest.head? = some '.' && !(rest.drop 1).isEmpty && (rest.drop 1).all Char.isDigit))

/-- `depth_valid` from the source: strip, drop one sign, drop spaces, require
`^\d+(\.\d+)?$`, and bound the integer part to 3 digits. -/
def depth_valid (num_str : String) : Bool :=
  if num_str.data.isEmpty then false
  else
    let s := stripSpaces (stripSign (pyStrip num_str.data))
    digitsDotShape s && decide ((s.takeWhile (fun c => c ≠ '.')).length ≤ 3)

/-- `repair_temp` from the source: normalize to a digit/dot string, then the
decimal-point branch, the short-integer branch, or the 3-candidate repair
cascade for ambiguous pure-digit strings of length ≥ 3. -/
def repair_temp (num_str : String) : Option ℚ :=
  if num_str.data.isEmpty then none
  else
    let s := stripSpaces (stripSign (pyStrip num_str.data))
    let s := s.filter (fun c => c.isDigit || c = '.')
    if s.isEmpty then none
    else if '.' ∈ s then
      match parsePyFloat s with
      | none => none
      | some v => if v ≤ TEMP_MAX then some v else none
    else if !(s.all Char.isDigit) then none
    else if s.length ≤ 2 then
      let v : ℚ := digitsToNat s
      if v ≤ TEMP_MAX then some v else none
    else
      let cands : List ℚ :=
        [(digitsToNat (s.take 2) : ℚ), (digitsToNat (s.drop (s.length - 2)) : ℚ)] ++
          (if s.length = 3 then
            [(digitsToNat (s.take 2) : ℚ) + (digitsToNat (s.drop 2) : ℚ) / 10]
          else [])
      let valid := cands.filter (fun c => decide (c ≤ TEMP_MAX))
      if valid.isEmpty then none
      else
        match valid.filter (fun v => decide (|v - (⌊v⌋ : ℚ)| > 1 / 1000000000)) with
        | d :: _ => some d
        | [] => valid.min?

/-- `score_key` from the source: raw confidence plus structural bonuses. -/
def score_key (txt : String) (score : ℚ) : ℚ :=
  score + (if (extract_num_str (String.mk (stripSpaces txt.data))).isSome then (0.05 : ℚ) else 0)
    + (if '.' ∈ stripSpaces txt.data then (0.05 : ℚ) else 0)
    + (if sign_first (String.mk (stripSpaces txt.data)) then (0.08 : ℚ) else 0)


/-- One recognizer output, the `(txt, sc)` pair of `ocr_once`. -/
structure Sample where
  txt : String
  sc : ℚ
deriving DecidableEq

/-- The recognition pipeline for one field of one group, abstracted over the
image contents: rotation and source variant determine the recognized sample
(`ocr_once(rec_model, enhance_for_ocr(rotate_gray(img[src], rot)))`). -/
def Oracle : Type := ℤ → String → Sample

/-- Source-variant enumeration order `["sr", "v7", "v8"]` of the source. -/
def srcs : List String := ["sr", "v7", "v8"]

/-- The per-rotation angle probe of `choose_rotation`: best-scoring sample
over the angle source variants, starting from `{"txt": "", "sc": 0.0}`. -/
def angleProbe (aR : Oracle) (rot : ℤ) : Sample :=
  (srcs.map (aR rot)).foldl
    (fun best s => if score_key s.txt s.sc > score_key best.txt best.sc then s else best)
    ⟨"", 0⟩

/-- Python `max(l, key=f)`: first element attaining the maximum of `f`.
`dflt` is returned on `[]`, which never occurs at the call sites. -/
def pyMaxBy (f : ℤ → ℚ) (l : List ℤ) (dflt : ℤ) : ℤ :=
  match l with
  | [] => dflt
  | x :: xs => xs.foldl (fun best y => if f y > f best then y else best) x

/-- Tier-2 accumulator of `choose_rotation`: sum of `sc + 0.15` over the
temperature and depth samples whose text passes the unit-hint predicate. -/
def hintSum (tR dR : Oracle) (rot : ℤ) : ℚ :=
  (srcs.map (tR rot)).foldl
    (fun acc s => if has_temp_hint s.txt then acc + (s.sc + 0.15) else acc) 0
  + (srcs.map (dR rot)).foldl
      (fun acc s => if has_depth_hint s.txt then acc + (s.sc + 0.15) else acc) 0

/-- `choose_rotation` from the source: the 3-tier cascade returning a
rotation and a reason tag. -/
def choose_rotation (aR tR dR : Oracle) : ℤ × String :=
  let sign_rots := ROTATIONS.filter (fun r => sign_first (angleProbe aR r).txt)
  if sign_rots.isEmpty then
    let best_rot := pyMaxBy (hintSum tR dR) ROTATIONS 0
    if hintSum tR dR best_rot > 0 then (best_rot, "unit_hint")
    else (pyMaxBy (fun r => (angleProbe aR r).sc) ROTATIONS 0, "fallback_best_angle_score")
  else
    (pyMaxBy (fun r => (angleProbe aR r).sc) sign_rots 0, "angle_sign_first")

/-- The best-variant record of `read_field_best`. -/
structure FieldBest where
  src : String
  txt : String
  sc : ℚ
deriving DecidableEq

/-- The §4.2 ranking score of a candidate, `score_key(txt, sc)`. -/
def fieldScore (b : FieldBest) : ℚ := score_key b.txt b.sc

/-- The candidate a source variant contributes inside `read_field_best`:
its recognized text and confidence at the chosen rotation. -/
def fieldCand (R : Oracle) (rot : ℤ) (src : String) : FieldBest :=
  ⟨src, (R rot src).txt, (R rot src).sc⟩

/-- `read_field_best` from the source: scan the three source variants at the
chosen rotation, keeping the strictly-best §4.2 score; the starting value is
the sentinel `{"src": "none", "txt": "", "sc": 0.0}`. -/
def read_field_best (R : Oracle) (rot : ℤ) : FieldBest :=
  srcs.foldl
    (fun best src =>
      if fieldScore (fieldCand R rot src) > fieldScore best then fieldCand R rot src
      else best)
    ⟨"none", "", 0⟩

/-- `normalize_angle(angle_num)` where `angle_num` may be Python `None`
(falsy, so the callee returns `None`). -/
def normalize_angleO : Option String → Option String
  | none => none
  | some s => normalize_angle s

/-- `repair_temp(temp_num)` with a possibly-`None` argument. -/
def repair_tempO : Option String → Option ℚ
  | none => none
  | some s => repair_temp s

/-- `depth_valid(depth_num)` with a possibly-`None` argument. -/
def depth_validO : Option String → Bool
  | none => false
  | some s => depth_valid s

/-- `depth_num if depth_valid(depth_num) else None` from `main`. -/
def depthFinalO (n : Option String) : Option String :=
  if depth_validO n then n else none

/-- The `mistakes` list built in `main`, in its append order. -/
def mkMistakes (aInv tInv dInv : Bool) (asc tsc dsc : ℚ) : List String :=
  (if aInv then ["angle_invalid"] else []) ++
  (if tInv then ["temp_invalid"] else []) ++
  (if dInv then ["depth_invalid"] else []) ++
  (if asc < SCORE_THRESHOLD then ["angle_low_score"] else []) ++
  (if tsc < SCORE_THRESHOLD then ["temp_low_score"] else []) ++
  (if dsc < SCORE_THRESHOLD then ["depth_low_score"] else [])

/-- Everything `main` computes for one group whose 9 required images are
present and decodable. -/
structure CoreResult where
  rot : ℤ
  rot_reason : String
  angleBest : FieldBest
  tempBest : FieldBest
  depthBest : FieldBest
  angle_final : Option String
  temp_final : Option ℚ
  depth_final : Option String
  mistakes : List String
  status : String
deriving DecidableEq

/-- The fully-evaluated-group path of `main` (rotation choice, per-field
best reads, numeric extraction, repair/validation, mistake collection and
status), parameterized by the per-field recognition oracles. -/
def evalCore (aR tR dR : Oracle) : CoreResult :=
  let rc := choose_rotation aR tR dR
  let aB := read_field_best aR rc.1
  let tB := read_field_best tR rc.1
  let dB := read_field_best dR rc.1
  let aF := normalize_angleO (extract_num_str aB.txt)
  let tF := repair_tempO (extract_num_str tB.txt)
  let dF := depthFinalO (extract_num_str dB.txt)
  let ms := mkMistakes aF.isNone tF.isNone dF.isNone aB.sc tB.sc dB.sc
  { rot := rc.1, rot_reason := rc.2, angleBest := aB, tempBest := tB, depthBest := dB,
    angle_final := aF, temp_final := tF, depth_final := dF, mistakes := ms,
    status := if ms.isEmpty then "OK" else "MISTAKE" }

/-- The JSON-like values of the emitted records. -/
inductive JVal where
  | str : String → JVal
  | num : ℚ → JVal
  | arr : List JVal → JVal
  | obj : List (String × JVal) → JVal

/-- Top-level keys of an object record, in emission order. -/
def objKeys : JVal → List String
  | JVal.obj l => l.map Prod.fst
  | _ => []

/-- Field lookup in an object record. -/
def jGet (j : JVal) (k : String) : Option JVal :=
  match j with
  | JVal.obj l => (l.find? (fun p => p.1 = k)).map Prod.snd
  | _ => none

/-- Two-level field lookup, `record[k1][k2]`. -/
def jGet2 (j : JVal) (k1 k2 : String) : Option JVal :=
  match jGet j k1 with
  | some v => jGet v k2
  | none => none

/-- `temp_final if temp_final is not None else "UNREADABLE"`. -/
def jNumOr : Option ℚ → JVal
  | some v => JVal.num v
  | none => JVal.str "UNREADABLE"

/-- A string value or the `"UNREADABLE"` sentinel. -/
def jStrOr : Option String → JVal
  | some s => JVal.str s
  | none => JVal.str "UNREADABLE"

/-- The full result record written by `main` for a fully evaluated group,
with its exact key strings and order. -/
def groupRecord (gid : String) (c : CoreResult) : JVal :=
  JVal.obj [
    ("id", JVal.str gid),
    ("status", JVal.str c.status),
    ("rotation", JVal.num (c.rot : ℚ)),
    ("rotation_reason", JVal.str c.rot_reason),
    ("values", JVal.obj [
      ("temp", jNumOr c.temp_final),
      ("depth", jStrOr c.depth_final),
      ("angle", jStrOr c.angle_final)]),
    ("sources", JVal.obj [
      ("temp", JVal.str c.tempBest.src),
      ("depth", JVal.str c.depthBest.src),
      ("angle", JVal.str c.angleBest.src)]),
    ("scores", JVal.obj [
      ("temp", JVal.num c.tempBest.sc),
      ("depth", JVal.num c.depthBest.sc),
      ("angle", JVal.num c.angleBest.sc)]),
    ("raw_text", JVal.obj [
      ("temp", JVal.str c.tempBest.txt),
      ("depth", JVal.str c.depthBest.txt),
      ("angle", JVal.str c.angleBest.txt)]),
    ("mistakes", JVal.arr (c.mistakes.map JVal.str))]

/-- The record `main` emits for a fully evaluated group. -/
def evalGroupRecord (aR tR dR : Oracle) (gid : String) : JVal :=
  groupRecord gid (evalCore aR tR dR)

/-- The record `main` emits when required image keys are missing. -/
def missingRecord (gid : String) (missing : List String) : JVal :=
  JVal.obj [
    ("id", JVal.str gid),
    ("status", JVal.str "MISTAKE"),
    ("reason", JVal.str "missing_files"),
    ("missing", JVal.arr (missing.map JVal.str))]

/-- The record `main` emits when an image file fails to decode. -/
def cantReadRecord (gid : String) : JVal :=
  JVal.obj [
    ("id", JVal.str gid),
    ("status", JVal.str "MISTAKE"),
    ("reason", JVal.str "cant_read_image")]

/-! ### Helper lemmas -/

example : repair_temp "963" = some 63 := by with_unfolding_all decide
example : repair_temp "375" = some (75 / 2) := by with_unfolding_all decide
example : repair_temp "37" = some 37 := by with_unfolding_all decide
example : repair_temp "81.0" = none := by with_unfolding_all decide
example : repair_temp "7.5" = some (15 / 2) := by with_unfolding_all decide
example : normalize_angle "5" = some "+5" := by with_unfolding_all decide
example : normalize_angle "-120" = none := by with_unfolding_all decide
example : normalize_angle "+45.5" = some "+45.5" := by with_unfolding_all decide
example : depth_valid "123" = true := by with_unfolding_all decide
example : depth_valid "1234" = false := by with_unfolding_all decide
example : depth_valid "12.5" = true := by with_unfolding_all decide
example : depth_valid "-5" = true := by with_unfolding_all decide
example : has_temp_hint (String.mk degreeGlyph) = false := by with_unfolding_all decide
example : has_temp_hint "25 C" = true := by with_unfolding_all decide
example : extract_num_str "ab-12.5cd7" = some "-12.5" := by with_unfolding_all decide
example : score_key "" 0 = 0 := by with_unfolding_all decide
example : score_key "-5" (9 / 10) = 103 / 100 := by with_unfolding_all decide

lemma char_toNat_ofNat {n : Nat} (h : n < 55296) : (Char.ofNat n).toNat = n := by
  rw [Char.ofNat, dif_pos (Or.inl h)]
  rfl

lemma pyLowerChar_toNat_ne_xC2 (c : Char) : (pyLowerChar c).toNat ≠ 194 := by
  unfold pyLowerChar
  split_ifs with h1 h2
  · rw [char_toNat_ofNat (by omega)]; omega
  · rw [char_toNat_ofNat (by omega)]; omega
  · intro hc
    exact h2 ⟨by omega, by omega, by omega⟩

lemma degreeGlyph_never_matches (l : List Char) : ¬ degreeGlyph <:+: l.map pyLowerChar := by
  intro h
  have hmem : Char.ofNat 0xC2 ∈ l.map pyLowerChar := h.subset (by simp [degreeGlyph])
  obtain ⟨c, _, hceq⟩ := List.mem_map.mp hmem
  have hne := pyLowerChar_toNat_ne_xC2 c
  rw [hceq, char_toNat_ofNat (by omega)] at hne
  exact hne rfl

lemma if_cons_sublist {c : Prop} [Decidable c] (x : String) {l l' : List String}
    (h : List.Sublist l l') : List.Sublist ((if c then [x] else []) ++ l) (x :: l') := by
  split
  · exact List.Sublist.cons₂ x h
  · exact List.Sublist.cons x h

lemma if_singleton_sublist {c : Prop} [Decidable c] (x : String) :
    List.Sublist (if c then [x] else []) [x] := by
  split
  · exact List.Sublist.refl _
  · exact List.nil_sublist _

lemma mkMistakes_sublist (a t d : Bool) (x y z : ℚ) :
    List.Sublist (mkMistakes a t d x y z)
      ["angle_invalid", "temp_invalid", "depth_invalid",
       "angle_low_score", "temp_low_score", "depth_low_score"] := by
  unfold mkMistakes
  simp only [List.append_assoc]
  exact if_cons_sublist _ (if_cons_sublist _ (if_cons_sublist _ (if_cons_sublist _
    (if_cons_sublist _ (if_singleton_sublist _)))))

/-! ### C1 -/

/-- C1 counterexample: the claim says `repair_temp("963")` is rejected
(`None`), but the code accepts it: the last-two-digit candidate 63 passes
the 80.0 bound. -/
theorem repair_temp_963_ne_none : repair_temp "963" ≠ none := by
  with_unfolding_all decide

/-- C1 amended: `repair_temp("963")` returns 63.0 — of the candidates 96,
63 and 96.3, only 63 survives the 80.0 filter; it has no non-trivial
fractional part, so the minimum surviving candidate 63.0 is returned. -/
theorem repair_temp_963_eq_63 : repair_temp "963" = some 63 := by
  with_unfolding_all decide

/-! ### C8 -/

/-- C8 counterexample: a text consisting of the source's own degree-glyph
character sequence (`Â` then `°`) contains a degree-sign glyph and no `c`,
yet `has_temp_hint` returns `false` on it (lowercasing turns `Â` into `â`,
so the glyph pattern can never match). -/
theorem has_temp_hint_degree_counterexample :
    (String.mk degreeGlyph).data.contains (Char.ofNat 0xB0) = true ∧
    (String.mk degreeGlyph).data.contains 'c' = false ∧
    has_temp_hint (String.mk degreeGlyph) = false := by
  with_unfolding_all decide

/-- C8 amended: `has_temp_hint(text)` is true iff the lowercased text
contains the letter `c`; the degree-glyph branch is dead because its
pattern starts with the uppercase character `Â` (U+00C2), which never
survives lowercasing. -/
theorem has_temp_hint_iff_contains_c (txt : String) :
    has_temp_hint txt = (txt.data.map pyLowerChar).contains 'c' ∧
    ¬ degreeGlyph <:+: txt.data.map pyLowerChar := by
  refine ⟨?_, degreeGlyph_never_matches txt.data⟩
  unfold has_temp_hint
  rw [decide_eq_false (degreeGlyph_never_matches txt.data), Bool.or_false]

/-! ### C9 -/

/-- C9: for every fully evaluated group, the `mistakes` list is a sublist
(order-preserving subsequence, without repetition) of the fixed sequence
`[angle_invalid, temp_invalid, depth_invalid, angle_low_score,
temp_low_score, depth_low_score]`. -/
theorem mistakes_sublist_fixed_order (aR tR dR : Oracle) :
    List.Sublist (evalCore aR tR dR).mistakes
      ["angle_invalid", "temp_invalid", "depth_invalid",
       "angle_low_score", "temp_low_score", "depth_low_score"] :=
  mkMistakes_sublist _ _ _ _ _ _

/-! ### C2 -/

lemma mem_mkMistakes_iff (a t d : Bool) (x y z : ℚ) :
    ("angle_invalid" ∈ mkMistakes a t d x y z ↔ a = true) ∧
    ("temp_invalid" ∈ mkMistakes a t d x y z ↔ t = true) ∧
    ("depth_invalid" ∈ mkMistakes a t d x y z ↔ d = true) ∧
    ("angle_low_score" ∈ mkMistakes a t d x y z ↔ x < SCORE_THRESHOLD) ∧
    ("temp_low_score" ∈ mkMistakes a t d x y z ↔ y < SCORE_THRESHOLD) ∧
    ("depth_low_score" ∈ mkMistakes a t d x y z ↔ z < SCORE_THRESHOLD) := by
  unfold mkMistakes
  cases a <;> cases t <;> cases d <;>
    rcases lt_or_le x SCORE_THRESHOLD with hx | hx <;>
    rcases lt_or_le y SCORE_THRESHOLD with hy | hy <;>
    rcases lt_or_le z SCORE_THRESHOLD with hz | hz <;>
    simp_all [not_lt_of_le]

lemma status_eq_ok_iff (ms : List String) :
    ((if ms.isEmpty then "OK" else "MISTAKE" : String) = "OK") ↔ ms = [] := by
  rcases ms with _ | ⟨a, l⟩ <;> simp

lemma status_eq_mistake (ms : List String) (h : ms ≠ []) :
    (if ms.isEmpty then "OK" else "MISTAKE" : String) = "MISTAKE" := by
  rcases ms with _ | ⟨a, l⟩ <;> simp_all

/-- C2: for every fully evaluated group, the status is `OK` iff the mistakes
list is empty (else `MISTAKE`), and the reason codes are exactly:
`{field}_invalid` iff the field's repaired value is `None`, and
`{field}_low_score` iff the field's best score is below `SCORE_THRESHOLD` —
the invalid and low-score checks are independent of each other. -/
theorem status_ok_iff_no_mistakes (aR tR dR : Oracle) :
    ((evalCore aR tR dR).status = "OK" ↔ (evalCore aR tR dR).mistakes = []) ∧
    ((evalCore aR tR dR).mistakes ≠ [] → (evalCore aR tR dR).status = "MISTAKE") ∧
    ("angle_invalid" ∈ (evalCore aR tR dR).mistakes ↔ (evalCore aR tR dR).angle_final = none) ∧
    ("temp_invalid" ∈ (evalCore aR tR dR).mistakes ↔ (evalCore aR tR dR).temp_final = none) ∧
    ("depth_invalid" ∈ (evalCore aR tR dR).mistakes ↔ (evalCore aR tR dR).depth_final = none) ∧
    ("angle_low_score" ∈ (evalCore aR tR dR).mistakes ↔
      (evalCore aR tR dR).angleBest.sc < SCORE_THRESHOLD) ∧
    ("temp_low_score" ∈ (evalCore aR tR dR).mistakes ↔
      (evalCore aR tR dR).tempBest.sc < SCORE_THRESHOLD) ∧
    ("depth_low_score" ∈ (evalCore aR tR dR).mistakes ↔
      (evalCore aR tR dR).depthBest.sc < SCORE_THRESHOLD) := by
  obtain ⟨h1, h2, h3, h4, h5, h6⟩ := mem_mkMistakes_iff
    ((evalCore aR tR dR).angle_final.isNone) ((evalCore aR tR dR).temp_final.isNone)
    ((evalCore aR tR dR).depth_final.isNone) ((evalCore aR tR dR).angleBest.sc)
    ((evalCore aR tR dR).tempBest.sc) ((evalCore aR tR dR).depthBest.sc)
  have hmm : (evalCore aR tR dR).mistakes = mkMistakes
      ((evalCore aR tR dR).angle_final.isNone) ((evalCore aR tR dR).temp_final.isNone)
      ((evalCore aR tR dR).depth_final.isNone) ((evalCore aR tR dR).angleBest.sc)
      ((evalCore aR tR dR).tempBest.sc) ((evalCore aR tR dR).depthBest.sc) := rfl
  have hst : (evalCore aR tR dR).status =
      (if (evalCore aR tR dR).mistakes.isEmpty then "OK" else "MISTAKE") := rfl
  refine ⟨by rw [hst]; exact status_eq_ok_iff _,
          fun h => by rw [hst]; exact status_eq_mistake _ h,
          ?_, ?_, ?_, ?_, ?_, ?_⟩
  · rw [hmm]; exact h1.trans Option.isNone_iff_eq_none
  · rw [hmm]; exact h2.trans Option.isNone_iff_eq_none
  · rw [hmm]; exact h3.trans Option.isNone_iff_eq_none
  · rw [hmm]; exact h4
  · rw [hmm]; exact h5
  · rw [hmm]; exact h6

/-! ### C5 -/

/-- C5 counterexample: the record emitted for a group with a missing
required image does not carry the full schema — it has exactly the keys
`id`, `status`, `reason`, `missing` and in particular no `rotation`,
`values` or `mistakes` field. -/
theorem missingRecord_keys_counterexample :
    objKeys (missingRecord "group1" ["depth_v8"]) = ["id", "status", "reason", "missing"] ∧
    "rotation" ∉ objKeys (missingRecord "group1" ["depth_v8"]) ∧
    "mistakes" ∉ objKeys (missingRecord "group1" ["depth_v8"]) := by
  with_unfolding_all decide

/-- C5 amended: the record of every fully evaluated group carries exactly
the claimed schema (`id`, `status`, `rotation`, `rotation_reason`,
`values/sources/scores/raw_text` each with subkeys `temp`, `depth`,
`angle`, and `mistakes`); the early-exit records instead carry exactly
`id`, `status`, `reason` (with `missing` added in the missing-files
case), the reason being a top-level string, not a `mistakes` list. -/
theorem record_schema_amended (aR tR dR : Oracle) (gid : String) (missing : List String) :
    objKeys (evalGroupRecord aR tR dR gid) =
      ["id", "status", "rotation", "rotation_reason", "values",
       "sources", "scores", "raw_text", "mistakes"] ∧
    (jGet (evalGroupRecord aR tR dR gid) "values").map objKeys = some ["temp", "depth", "angle"] ∧
    (jGet (evalGroupRecord aR tR dR gid) "sources").map objKeys = some ["temp", "depth", "angle"] ∧
    (jGet (evalGroupRecord aR tR dR gid) "scores").map objKeys = some ["temp", "depth", "angle"] ∧
    (jGet (evalGroupRecord aR tR dR gid) "raw_text").map objKeys = some ["temp", "depth", "angle"] ∧
    jGet (evalGroupRecord aR tR dR gid) "mistakes" =
      some (JVal.arr ((evalCore aR tR dR).mistakes.map JVal.str)) ∧
    objKeys (missingRecord gid missing) = ["id", "status", "reason", "missing"] ∧
    jGet (missingRecord gid missing) "reason" = some (JVal.str "missing_files") ∧
    objKeys (cantReadRecord gid) = ["id", "status", "reason"] ∧
    jGet (cantReadRecord gid) "reason" = some (JVal.str "cant_read_image") := by
  exact ⟨rfl, rfl, rfl, rfl, rfl, rfl, rfl, rfl, rfl, rfl⟩

/-! ### C10 -/

lemma depthFinalO_isSome {n : Option String} (h : (depthFinalO n).isSome = true) :
    depthFinalO n = n := by
  unfold depthFinalO at h ⊢
  split at h
  · split
    · rfl
    · simp_all
  · simp at h

/-- C10: for every fully evaluated group, the emitted depth value is the
extracted numeric substring verbatim (a string, sign included — `"-5"`
validates with the sign stripped but is emitted as `"-5"`), while the
emitted temperature value is the parsed rational. -/
theorem depth_value_verbatim :
    (∀ aR tR dR : Oracle, (evalCore aR tR dR).depth_final.isSome = true →
      (evalCore aR tR dR).depth_final = extract_num_str (evalCore aR tR dR).depthBest.txt) ∧
    depth_valid "-5" = true ∧
    depthFinalO (some "-5") = some "-5" ∧
    (∀ (aR tR dR : Oracle) (gid : String),
      jGet2 (evalGroupRecord aR tR dR gid) "values" "depth" =
        some (jStrOr (evalCore aR tR dR).depth_final) ∧
      jGet2 (evalGroupRecord aR tR dR gid) "values" "temp" =
        some (jNumOr (evalCore aR tR dR).temp_final)) := by
  refine ⟨fun aR tR dR h => depthFinalO_isSome h,
          by with_unfolding_all decide,
          by with_unfolding_all decide,
          fun aR tR dR gid => ⟨rfl, rfl⟩⟩

/-- Constant recognizer used to witness `depth_value_verbatim`. -/
def constOracle : Oracle := fun _ _ => ⟨"-5", 9 / 10⟩

/-- Witness for C10 at the constant `"-5"` recognizer: the hypothesis (the
depth value validates) holds and the emitted value is the extracted
string. -/
theorem depth_value_verbatim_witness :
    (evalCore constOracle constOracle constOracle).depth_final =
      extract_num_str (evalCore constOracle constOracle constOracle).depthBest.txt :=
  depth_value_verbatim.1 constOracle constOracle constOracle (by with_unfolding_all decide)

/-! ### C4 -/

lemma foldl_max_choice (f : ℤ → ℚ) (l : List ℤ) : ∀ a : ℤ,
    l.foldl (fun best y => if f y > f best then y else best) a = a ∨
    l.foldl (fun best y => if f y > f best then y else best) a ∈ l := by
  induction l with
  | nil => exact fun a => Or.inl rfl
  | cons x xs ih =>
    intro a
    rw [List.foldl_cons]
    rcases ih (if f x > f a then x else a) with h | h
    · rw [h]
      split
      · exact Or.inr (List.mem_cons_self x xs)
      · exact Or.inl rfl
    · exact Or.inr (List.mem_cons_of_mem x h)

lemma foldl_max_ge_init (f : ℤ → ℚ) (l : List ℤ) : ∀ a : ℤ,
    f a ≤ f (l.foldl (fun best y => if f y > f best then y else best) a) := by
  induction l with
  | nil => exact fun a => le_refl _
  | cons x xs ih =>
    intro a
    rw [List.foldl_cons]
    refine le_trans ?_ (ih _)
    split_ifs with h
    · exact le_of_lt h
    · exact le_refl _

lemma foldl_max_ge_mem (f : ℤ → ℚ) (l : List ℤ) : ∀ a x, x ∈ l →
    f x ≤ f (l.foldl (fun best y => if f y > f best then y else best) a) := by
  induction l with
  | nil => intro a x hx; simp at hx
  | cons y ys ih =>
    intro a x hx
    rw [List.foldl_cons]
    rcases List.mem_cons.mp hx with rfl | hx'
    · refine le_trans ?_ (foldl_max_ge_init f ys _)
      split_ifs with h
      · exact le_refl _
      · exact le_of_not_lt h
    · exact ih _ x hx'

lemma pyMaxBy_mem (f : ℤ → ℚ) {l : List ℤ} (d : ℤ) (h : l ≠ []) : pyMaxBy f l d ∈ l := by
  cases l with
  | nil => exact absurd rfl h
  | cons x xs =>
    simp only [pyMaxBy]
    rcases foldl_max_choice f xs x with h' | h'
    · rw [h']; exact List.mem_cons_self x xs
    · exact List.mem_cons_of_mem x h'

lemma pyMaxBy_ge (f : ℤ → ℚ) {l : List ℤ} (d : ℤ) {x : ℤ} (hx : x ∈ l) :
    f x ≤ f (pyMaxBy f l d) := by
  cases l with
  | nil => simp at hx
  | cons y ys =>
    simp only [pyMaxBy]
    rcases List.mem_cons.mp hx with rfl | h'
    · exact foldl_max_ge_init f ys x
    · exact foldl_max_ge_mem f ys y x h'

/-- C4: `choose_rotation` always returns a rotation from the fixed set and
one of exactly three reason tags; whenever some rotation's angle probe text
has a sign prefix, the result is tagged `angle_sign_first`, its probe is
sign-prefixed, and its raw confidence is maximal among the sign-prefixed
rotations; in particular, when rotation 180 is the only sign-prefixed one,
the result is `(180, "angle_sign_first")` regardless of confidences. -/
theorem choose_rotation_spec (aR tR dR : Oracle) :
    (choose_rotation aR tR dR).1 ∈ ROTATIONS ∧
    (choose_rotation aR tR dR).2 ∈
      ["angle_sign_first", "unit_hint", "fallback_best_angle_score"] ∧
    (∀ r ∈ ROTATIONS, sign_first (angleProbe aR r).txt = true →
      (choose_rotation aR tR dR).2 = "angle_sign_first" ∧
      sign_first (angleProbe aR (choose_rotation aR tR dR).1).txt = true ∧
      ∀ q ∈ ROTATIONS, sign_first (angleProbe aR q).txt = true →
        (angleProbe aR q).sc ≤ (angleProbe aR (choose_rotation aR tR dR).1).sc) ∧
    ((sign_first (angleProbe aR 180).txt = true ∧
      sign_first (angleProbe aR 0).txt = false ∧
      sign_first (angleProbe aR 90).txt = false ∧
      sign_first (angleProbe aR (-90)).txt = false) →
      choose_rotation aR tR dR = (180, "angle_sign_first")) := by
  cases hsr : (ROTATIONS.filter (fun r => sign_first (angleProbe aR r).txt)).isEmpty with
  | true =>
    have hnil : ROTATIONS.filter (fun r => sign_first (angleProbe aR r).txt) = [] :=
      List.isEmpty_iff.mp hsr
    have hcr : choose_rotation aR tR dR =
        (if hintSum tR dR (pyMaxBy (hintSum tR dR) ROTATIONS 0) > 0 then
          (pyMaxBy (hintSum tR dR) ROTATIONS 0, "unit_hint")
        else (pyMaxBy (fun r => (angleProbe aR r).sc) ROTATIONS 0,
          "fallback_best_angle_score")) := by
      simp only [choose_rotation, hsr, if_true]
    have hrne : ROTATIONS ≠ [] := by simp [ROTATIONS]
    refine ⟨?_, ?_, ?_, ?_⟩
    · rw [hcr]
      split_ifs with hc
      · exact pyMaxBy_mem (hintSum tR dR) 0 hrne
      · exact pyMaxBy_mem (fun r => (angleProbe aR r).sc) 0 hrne
    · rw [hcr]; split_ifs <;> simp
    · intro r hr hsgn
      have : r ∈ ROTATIONS.filter (fun q => sign_first (angleProbe aR q).txt) :=
        List.mem_filter.mpr ⟨hr, hsgn⟩
      rw [hnil] at this
      simp at this
    · rintro ⟨h180, h0, h90, hm90⟩
      have : (180 : ℤ) ∈ ROTATIONS.filter (fun q => sign_first (angleProbe aR q).txt) :=
        List.mem_filter.mpr ⟨by simp [ROTATIONS], h180⟩
      rw [hnil] at this
      simp at this
  | false =>
    have hne : ROTATIONS.filter (fun r => sign_first (angleProbe aR r).txt) ≠ [] := by
      intro hc
      rw [hc] at hsr
      simp at hsr
    have hcr : choose_rotation aR tR dR =
        (pyMaxBy (fun r => (angleProbe aR r).sc)
          (ROTATIONS.filter (fun r => sign_first (angleProbe aR r).txt)) 0,
         "angle_sign_first") := by
      simp only [choose_rotation, hsr, Bool.false_eq_true, if_false]
    have hmem : (choose_rotation aR tR dR).1 ∈
        ROTATIONS.filter (fun r => sign_first (angleProbe aR r).txt) := by
      rw [hcr]; exact pyMaxBy_mem (fun r => (angleProbe aR r).sc) 0 hne
    refine ⟨(List.mem_filter.mp hmem).1, by rw [hcr]; simp, ?_, ?_⟩
    · intro r hr hsgn
      refine ⟨by rw [hcr], (List.mem_filter.mp hmem).2, ?_⟩
      intro q hq hqsgn
      have hqmem : q ∈ ROTATIONS.filter (fun p => sign_first (angleProbe aR p).txt) :=
        List.mem_filter.mpr ⟨hq, hqsgn⟩
      rw [hcr]
      exact pyMaxBy_ge (fun r => (angleProbe aR r).sc) 0 hqmem
    · rintro ⟨h180, h0, h90, hm90⟩
      have hfil : ROTATIONS.filter (fun r => sign_first (angleProbe aR r).txt) = [180] := by
        simp [ROTATIONS, List.filter_cons, h0, h90, hm90, h180]
      rw [hcr, hfil]
      rfl

/-- Angle oracle that is sign-prefixed at rotation 180 only, with a higher
raw confidence at the other rotations. -/
def signOracle180 : Oracle := fun r _ => if r = 180 then ⟨"+45", 9 / 10⟩ else ⟨"77", 19 / 20⟩

/-- Oracle whose recognitions are all empty. -/
def quietOracle : Oracle := fun _ _ => ⟨"", 0⟩

/-- Witness for C4: with sign evidence at rotation 180 only, the selector
returns `(180, "angle_sign_first")` despite higher confidences elsewhere. -/
theorem choose_rotation_spec_witness :
    choose_rotation signOracle180 quietOracle quietOracle = (180, "angle_sign_first") :=
  (choose_rotation_spec signOracle180 quietOracle quietOracle).2.2.2
    ⟨by with_unfolding_all decide, by with_unfolding_all decide,
     by with_unfolding_all decide, by with_unfolding_all decide⟩

/-! ### C6 -/

/-- Oracle whose recognitions are all empty with zero confidence, as
`ocr_once` returns on a recognition failure. -/
def zeroOracle : Oracle := fun _ _ => ⟨"", 0⟩

/-- C6 counterexample: when every variant recognizes to empty text with
zero confidence, no candidate beats the sentinel start value and
`read_field_best` returns source `"none"`, which is outside `{sr,v7,v8}`. -/
theorem read_field_best_none_counterexample :
    (read_field_best zeroOracle 0).src = "none" ∧ "none" ∉ srcs := by
  with_unfolding_all decide

/-- C6 amended: whenever at least one variant's candidate scores above the
sentinel score 0, `read_field_best` returns one of `{sr, v7, v8}` whose
§4.2 score is maximal (first-enumerated on ties), and the record's
`sources` entries are exactly the chosen variants. -/
lemma foldl_best_choice (g : String → FieldBest) (l : List String) : ∀ b : FieldBest,
    l.foldl (fun best src => if fieldScore (g src) > fieldScore best then g src else best) b
      = b ∨
    ∃ s ∈ l, l.foldl
      (fun best src => if fieldScore (g src) > fieldScore best then g src else best) b
      = g s := by
  induction l with
  | nil => exact fun b => Or.inl rfl
  | cons x xs ih =>
    intro b
    rw [List.foldl_cons]
    rcases ih (if fieldScore (g x) > fieldScore b then g x else b) with h | ⟨s, hs, h⟩
    · rw [h]
      split
      · exact Or.inr ⟨x, List.mem_cons_self x xs, rfl⟩
      · exact Or.inl rfl
    · exact Or.inr ⟨s, List.mem_cons_of_mem x hs, h⟩

lemma foldl_best_ge_init (g : String → FieldBest) (l : List String) : ∀ b : FieldBest,
    fieldScore b ≤ fieldScore (l.foldl
      (fun best src => if fieldScore (g src) > fieldScore best then g src else best) b) := by
  induction l with
  | nil => exact fun b => le_refl _
  | cons x xs ih =>
    intro b
    rw [List.foldl_cons]
    refine le_trans ?_ (ih _)
    split_ifs with h
    · exact le_of_lt h
    · exact le_refl _

lemma foldl_best_ge_mem (g : String → FieldBest) (l : List String) : ∀ (b : FieldBest),
    ∀ s ∈ l, fieldScore (g s) ≤ fieldScore (l.foldl
      (fun best src => if fieldScore (g src) > fieldScore best then g src else best) b) := by
  induction l with
  | nil => intro b s hs; simp at hs
  | cons x xs ih =>
    intro b s hs
    rw [List.foldl_cons]
    rcases List.mem_cons.mp hs with rfl | hs'
    · refine le_trans ?_ (foldl_best_ge_init g xs _)
      split_ifs with h
      · exact le_refl _
      · exact le_of_not_lt h
    · exact ih _ s hs'

theorem read_field_best_amended (R : Oracle) (rot : ℤ)
    (h : ∃ s ∈ srcs, 0 < score_key (R rot s).txt (R rot s).sc) :
    (read_field_best R rot).src ∈ srcs ∧
    (∀ s ∈ srcs, score_key (R rot s).txt (R rot s).sc ≤
      score_key (read_field_best R rot).txt (read_field_best R rot).sc) ∧
    (∀ (aR tR dR : Oracle) (gid : String),
      jGet2 (evalGroupRecord aR tR dR gid) "sources" "angle" =
        some (JVal.str (read_field_best aR (choose_rotation aR tR dR).1).src) ∧
      jGet2 (evalGroupRecord aR tR dR gid) "sources" "temp" =
        some (JVal.str (read_field_best tR (choose_rotation aR tR dR).1).src) ∧
      jGet2 (evalGroupRecord aR tR dR gid) "sources" "depth" =
        some (JVal.str (read_field_best dR (choose_rotation aR tR dR).1).src)) := by
  have h0 : fieldScore (⟨"none", "", 0⟩ : FieldBest) = 0 := by
    with_unfolding_all decide
  have hge : ∀ s ∈ srcs, fieldScore (fieldCand R rot s) ≤ fieldScore (read_field_best R rot) :=
    fun s hs => foldl_best_ge_mem (fieldCand R rot) srcs _ s hs
  have hnotinit : read_field_best R rot ≠ ⟨"none", "", 0⟩ := by
    intro hc
    obtain ⟨s, hs, hpos⟩ := h
    have hle := hge s hs
    rw [hc, h0] at hle
    have : fieldScore (fieldCand R rot s) = score_key (R rot s).txt (R rot s).sc := rfl
    rw [this] at hle
    exact absurd (lt_of_lt_of_le hpos hle) (lt_irrefl 0)
  refine ⟨?_, fun s hs => hge s hs, fun aR tR dR gid => ⟨rfl, rfl, rfl⟩⟩
  rcases foldl_best_choice (fieldCand R rot) srcs ⟨"none", "", 0⟩ with hc | ⟨s, hs, hc⟩
  · exact absurd hc hnotinit
  · have : (read_field_best R rot).src = s := by
      rw [show read_field_best R rot = fieldCand R rot s from hc]
      rfl
    rw [this]
    exact hs

/-- Constant single-digit recognizer used to witness the C6 theorem. -/
def sevenOracle : Oracle := fun _ _ => ⟨"7", 9 / 10⟩

/-- Witness for C6: with a candidate scoring above 0, the chosen source is
one of the three real variants. -/
theorem read_field_best_amended_witness :
    (read_field_best sevenOracle 0).src ∈ srcs :=
  (read_field_best_amended sevenOracle 0
    ⟨"sr", by with_unfolding_all decide, by with_unfolding_all decide⟩).1

/-- Witness for C2 at the all-empty recognizer: its mistakes list is
non-empty, so the status is `MISTAKE`. -/
theorem status_ok_iff_no_mistakes_witness :
    (evalCore zeroOracle zeroOracle zeroOracle).status = "MISTAKE" :=
  (status_ok_iff_no_mistakes zeroOracle zeroOracle zeroOracle).2.1
    (by with_unfolding_all decide)

/-- Witness for the C8 amended theorem at a concrete text. -/
theorem has_temp_hint_iff_contains_c_witness :
    has_temp_hint "25 C" = ("25 C".data.map pyLowerChar).contains 'c' :=
  (has_temp_hint_iff_contains_c "25 C").1

/-! ### C7 -/

@[simp] lemma string_mk_data (l : List Char) : (String.mk l).data = l := rfl

/-- The shape of the numeric strings produced by `extract_num_str`:
`[+-]? digits+ (. digits+)?`. -/
def isNumShape (l : List Char) : Bool :=
  if l.head? = some '+' || l.head? = some '-' then digitsDotShape (l.drop 1)
  else digitsDotShape l

/-- Modelled from the spec's wording for §4.1/§4.3 values: the numeric value
of an unsigned decimal string, integer part plus fractional part. -/
def unsignedVal (l : List Char) : ℚ :=
  (digitsToNat (l.takeWhile Char.isDigit) : ℚ) +
    (digitsToNat ((l.dropWhile Char.isDigit).drop 1) : ℚ) /
      (10 : ℚ) ^ ((l.dropWhile Char.isDigit).drop 1).length

/-- The signed numeric value of a `[+-]? digits+ (. digits+)?` string. -/
def numShapeVal (l : List Char) : ℚ :=
  if l.head? = some '-' then -(unsignedVal (l.drop 1))
  else if l.head? = some '+' then unsignedVal (l.drop 1)
  else unsignedVal l

/-- The string after the sign-defaulting step of `normalize_angle`. -/
def withSign (l : List Char) : List Char :=
  if l.head? = some '+' || l.head? = some '-' then l else '+' :: l

lemma parsePyFloatCore_of_shape {l : List Char} (h : digitsDotShape l = true) :
    parsePyFloatCore l = some (unsignedVal l) := by
  unfold digitsDotShape at h
  rw [Bool.and_eq_true, Bool.or_eq_true] at h
  obtain ⟨h1, h2⟩ := h
  have hipne : ¬ ((l.takeWhile Char.isDigit).isEmpty = true) := by
    simp only [Bool.not_eq_true'] at h1
    rw [h1]
    simp
  rcases h2 with h2 | h2
  · unfold parsePyFloatCore unsignedVal
    rw [if_pos h2, if_neg hipne]
    rw [List.isEmpty_iff.mp h2]
    norm_num [digitsToNat]
  · rw [Bool.and_eq_true, Bool.and_eq_true] at h2
    obtain ⟨⟨hdot, hne⟩, hall⟩ := h2
    have hrne : ¬ ((l.dropWhile Char.isDigit).isEmpty = true) := by
      intro hc
      rw [List.isEmpty_iff.mp hc] at hdot
      simp at hdot
    unfold parsePyFloatCore unsignedVal
    rw [if_neg hrne, if_pos]
    rw [Bool.and_eq_true, Bool.and_eq_true]
    refine ⟨⟨by rw [decide_eq_true_eq] at hdot ⊢; exact hdot, hall⟩, ?_⟩
    simp only [Bool.not_eq_true', Bool.and_eq_false_iff]
    left
    simp only [Bool.not_eq_true'] at h1
    exact h1

lemma digitsDotShape_chars {l : List Char} (h : digitsDotShape l = true) :
    ∀ c ∈ l, c.isDigit = true ∨ c = '.' := by
  intro c hc
  unfold digitsDotShape at h
  rw [Bool.and_eq_true, Bool.or_eq_true] at h
  obtain ⟨h1, h2⟩ := h
  rw [← List.takeWhile_append_dropWhile (p := Char.isDigit) (l := l)] at hc
  rcases List.mem_append.mp hc with hc | hc
  · exact Or.inl (List.mem_takeWhile_imp hc)
  · rcases h2 with h2 | h2
    · rw [List.isEmpty_iff.mp h2] at hc
      simp at hc
    · rw [Bool.and_eq_true, Bool.and_eq_true] at h2
      obtain ⟨⟨hdot, _⟩, hall⟩ := h2
      cases hrest : l.dropWhile Char.isDigit with
      | nil => rw [hrest] at hc; simp at hc
      | cons x xs =>
        rw [hrest] at hdot hall hc
        rw [decide_eq_true_eq] at hdot
        simp only [List.head?_cons, Option.some.injEq] at hdot
        rcases List.mem_cons.mp hc with rfl | hc'
        · exact Or.inr hdot
        · simp only [List.drop_one, List.tail_cons] at hall
          exact Or.inl (List.all_eq_true.mp hall c hc')

lemma numShape_no_space {l : List Char} (h : isNumShape l = true) :
    stripSpaces l = l := by
  apply List.filter_eq_self.mpr
  intro c hc
  rw [decide_eq_true_eq]
  intro hsp
  unfold isNumShape at h
  split_ifs at h with hsgn
  · cases l with
    | nil => simp at hc
    | cons a rest =>
      simp only [List.drop_one, List.tail_cons] at h
      rcases List.mem_cons.mp hc with rfl | hc'
      · rw [Bool.or_eq_true] at hsgn
        rcases hsgn with ha | ha <;>
          · rw [decide_eq_true_eq] at ha
            simp only [List.head?_cons, Option.some.injEq] at ha
            rw [hsp] at ha
            exact absurd ha (by decide)
      · rcases digitsDotShape_chars h c hc' with hd | hd
        · rw [hsp] at hd; exact absurd hd (by decide)
        · rw [hsp] at hd; exact absurd hd (by decide)
  · rcases digitsDotShape_chars h c hc with hd | hd
    · rw [hsp] at hd; exact absurd hd (by decide)
    · rw [hsp] at hd; exact absurd hd (by decide)

lemma numShape_ne_nil {l : List Char} (h : isNumShape l = true) : l ≠ [] := by
  intro hc
  subst hc
  rw [show isNumShape [] = false by with_unfolding_all decide] at h
  exact absurd h (by simp)

lemma digitsDotShape_head_digit {l : List Char} (h : digitsDotShape l = true) :
    ∃ c rest, l = c :: rest ∧ c.isDigit = true := by
  unfold digitsDotShape at h
  rw [Bool.and_eq_true] at h
  obtain ⟨h1, _⟩ := h
  cases hl : l with
  | nil => rw [hl] at h1; simp at h1
  | cons c rest =>
    refine ⟨c, rest, rfl, ?_⟩
    rw [hl] at h1
    by_contra hd
    rw [List.takeWhile_cons_of_neg (by simp [hd])] at h1
    simp at h1

lemma normalize_angle_eq_of_shape {l : List Char} (h : isNumShape l = true) :
    normalize_angle (String.mk l) =
      (if |numShapeVal l| > ANGLE_LIMIT_ABS then none
       else some (String.mk (withSign l))) := by
  have hne : l ≠ [] := numShape_ne_nil h
  have hss : stripSpaces l = l := numShape_no_space h
  unfold normalize_angle withSign
  simp only [string_mk_data, hss]
  rw [if_neg (by simp [hne])]
  unfold isNumShape at h
  by_cases hsgn : (l.head? = some '+' || l.head? = some '-') = true
  · rw [if_pos hsgn] at h ⊢
    cases l with
    | nil => exact absurd rfl hne
    | cons c rest =>
      simp only [List.drop_one, List.tail_cons] at h
      have hparse := parsePyFloatCore_of_shape h
      rw [Bool.or_eq_true] at hsgn
      rcases hsgn with hp | hp
      · rw [decide_eq_true_eq] at hp
        simp only [List.head?_cons, Option.some.injEq] at hp
        subst hp
        have hval : numShapeVal ('+' :: rest) = unsignedVal rest := by
          unfold numShapeVal
          rw [if_neg (by simp), if_pos (by simp)]
          simp
        have hp2 : parsePyFloat ('+' :: rest) = some (unsignedVal rest) := by
          simp only [parsePyFloat]
          simp [hparse]
        rw [hval, hp2]
      · rw [decide_eq_true_eq] at hp
        simp only [List.head?_cons, Option.some.injEq] at hp
        subst hp
        have hval : numShapeVal ('-' :: rest) = -(unsignedVal rest) := by
          unfold numShapeVal
          rw [if_pos (by simp)]
          simp
        have hp2 : parsePyFloat ('-' :: rest) = some (-(unsignedVal rest)) := by
          simp only [parsePyFloat]
          simp [hparse]
        rw [hval, hp2]
  · rw [if_neg hsgn] at h ⊢
    obtain ⟨c, rest, rfl, hcd⟩ := digitsDotShape_head_digit h
    have hparse := parsePyFloatCore_of_shape h
    have hcp : c ≠ '+' := by
      intro hc; subst hc; exact absurd hcd (by decide)
    have hcm : c ≠ '-' := by
      intro hc; subst hc; exact absurd hcd (by decide)
    have hval : numShapeVal (c :: rest) = unsignedVal (c :: rest) := by
      unfold numShapeVal
      rw [if_neg (by simp [hcm]), if_neg (by simp [hcp])]
    have hp2 : parsePyFloat ('+' :: c :: rest) = some (unsignedVal (c :: rest)) := by
      simp only [parsePyFloat]
      simp [hparse]
    rw [hval, hp2]

/-- C7: on every string of the numeric shape `extract_num_str` produces,
`normalize_angle` prepends `+` when no sign is present, parses the value,
returns `none` exactly when the absolute value exceeds 100.0, and otherwise
returns the signed decimal string itself; with the spec's three vectors. -/
theorem normalize_angle_spec :
    (∀ s : String, isNumShape s.data = true →
      normalize_angle s =
        (if |numShapeVal s.data| > ANGLE_LIMIT_ABS then none
         else some (String.mk (withSign s.data)))) ∧
    normalize_angle "5" = some "+5" ∧
    normalize_angle "-120" = none ∧
    normalize_angle "+45.5" = some "+45.5" := by
  refine ⟨fun s h => ?_, by with_unfolding_all decide,
    by with_unfolding_all decide, by with_unfolding_all decide⟩
  obtain ⟨l⟩ := s
  exact normalize_angle_eq_of_shape h

/-- Witness for C7 at the numeric string `"+45.5"`. -/
theorem normalize_angle_spec_witness :
    normalize_angle "+45.5" =
      (if |numShapeVal "+45.5".data| > ANGLE_LIMIT_ABS then none
       else some (String.mk (withSign "+45.5".data))) :=
  normalize_angle_spec.1 "+45.5" (by with_unfolding_all decide)

/-! ### C3 -/

/-- Modelled from the claim's wording: for a pure-digit string of length
≥ 3, build the candidates first-two-digits, last-two-digits, and (length 3
only) first-two-digits point third-digit; keep those ≤ `TEMP_MAX`; return
the first with a non-trivial fractional part, else the minimum survivor,
and `none` when none survive. -/
def repair_temp_spec (s : String) : Option ℚ :=
  let l := s.data
  let cands : List ℚ :=
    [(digitsToNat (l.take 2) : ℚ), (digitsToNat (l.drop (l.length - 2)) : ℚ)] ++
      (if l.length = 3 then
        [(digitsToNat (l.take 2) : ℚ) + (digitsToNat (l.drop 2) : ℚ) / 10]
      else [])
  let valid := cands.filter (fun c => decide (c ≤ TEMP_MAX))
  match valid.filter (fun v => decide (Int.fract v ≠ 0)) with
  | d :: _ => some d
  | [] => valid.min?

lemma digit_not_pyspace {c : Char} (hc : c.isDigit = true) : isPySpace c = false := by
  cases hsp : isPySpace c
  · rfl
  · exfalso
    unfold isPySpace at hsp
    repeat rw [Bool.or_eq_true] at hsp
    rcases hsp with ((((h | h) | h) | h) | h) | h <;>
      · rw [decide_eq_true_eq] at h
        subst h
        exact absurd hc (by decide)

lemma dropWhile_pyspace_eq_self {m : List Char}
    (hm : ∀ c ∈ m, isPySpace c = false) : m.dropWhile isPySpace = m := by
  cases m with
  | nil => rfl
  | cons a t =>
    rw [List.dropWhile_cons_of_neg]
    rw [hm a (List.mem_cons_self a t)]
    simp

lemma pyStrip_eq_self {l : List Char} (h : ∀ c ∈ l, isPySpace c = false) :
    pyStrip l = l := by
  unfold pyStrip
  rw [dropWhile_pyspace_eq_self h,
    dropWhile_pyspace_eq_self (fun c hc => h c (List.mem_reverse.mp hc)),
    List.reverse_reverse]

lemma frac_pred_equiv (v : ℚ) (k : ℤ) (hk : 10 * v = (k : ℚ)) :
    (|v - (⌊v⌋ : ℚ)| > 1 / 1000000000) ↔ Int.fract v ≠ 0 := by
  have h0 : 0 ≤ Int.fract v := Int.fract_nonneg v
  have habs : |v - (⌊v⌋ : ℚ)| = Int.fract v := by
    rw [Int.self_sub_floor]
    exact abs_of_nonneg h0
  rw [habs]
  constructor
  · intro h hz
    rw [hz] at h
    norm_num at h
  · intro hne
    have hpos : 0 < Int.fract v := lt_of_le_of_ne h0 (Ne.symm hne)
    have h10 : 10 * Int.fract v = ((k - 10 * ⌊v⌋ : ℤ) : ℚ) := by
      rw [← Int.self_sub_floor]
      push_cast
      rw [← hk]
      ring
    have hq : (0 : ℚ) < ((k - 10 * ⌊v⌋ : ℤ) : ℚ) := by
      rw [← h10]
      linarith
    have hz : 1 ≤ (k - 10 * ⌊v⌋ : ℤ) := by
      have : (0 : ℤ) < k - 10 * ⌊v⌋ := by exact_mod_cast hq
      omega
    have hone : (1 : ℚ) ≤ 10 * Int.fract v := by
      rw [h10]
      exact_mod_cast hz
    linarith

lemma temp_tail_eq (valid : List ℚ) :
    (if valid.isEmpty then none
     else match valid.filter (fun v => decide (Int.fract v ≠ 0)) with
       | d :: _ => some d
       | [] => valid.min?) =
    (match valid.filter (fun v => decide (Int.fract v ≠ 0)) with
       | d :: _ => some d
       | [] => valid.min?) := by
  cases valid with
  | nil => rfl
  | cons a t => rfl

lemma repair_temp_eq_spec_of_digits {l : List Char}
    (hall : l.all Char.isDigit = true) (hlen : 3 ≤ l.length) :
    repair_temp (String.mk l) = repair_temp_spec (String.mk l) := by
  have hdig : ∀ c ∈ l, c.isDigit = true := List.all_eq_true.mp hall
  have hne : l ≠ [] := by
    intro hc
    rw [hc] at hlen
    simp at hlen
  have h2 : pyStrip l = l :=
    pyStrip_eq_self (fun c hc => digit_not_pyspace (hdig c hc))
  have h3 : stripSign l = l := by
    cases hl : l with
    | nil => rfl
    | cons c rest =>
      have hcd : c.isDigit = true := hdig c (hl ▸ List.mem_cons_self c rest)
      show (if (decide (c = '+') || decide (c = '-')) = true then rest else c :: rest)
        = c :: rest
      rw [if_neg]
      intro hsgn
      rw [Bool.or_eq_true] at hsgn
      rcases hsgn with h | h <;>
        · rw [decide_eq_true_eq] at h
          subst h
          exact absurd hcd (by decide)
  have h4 : stripSpaces l = l := by
    apply List.filter_eq_self.mpr
    intro c hc
    rw [decide_eq_true_eq]
    intro hsp
    have := hdig c hc
    rw [hsp] at this
    exact absurd this (by decide)
  have h5 : l.filter (fun c => c.isDigit || decide (c = '.')) = l := by
    apply List.filter_eq_self.mpr
    intro c hc
    rw [Bool.or_eq_true]
    exact Or.inl (hdig c hc)
  have h6 : l.isEmpty = false := by
    cases l with
    | nil => exact absurd rfl hne
    | cons a t => rfl
  have h7 : ¬ ('.' ∈ l) := by
    intro hc
    exact absurd (hdig '.' hc) (by decide)
  have h9 : ¬ (l.length ≤ 2) := by omega
  have hA : ¬ (l.isEmpty = true) := by rw [h6]; simp
  have hB : ¬ ((!l.all Char.isDigit) = true) := by rw [hall]; simp
  unfold repair_temp repair_temp_spec
  simp only [string_mk_data, h2, h3, h4, h5]
  rw [if_neg hA]
  rw [if_neg hA]
  rw [if_neg h7]
  rw [if_neg hB]
  rw [if_neg h9]
  have hcongr :
      (((([(digitsToNat (l.take 2) : ℚ), (digitsToNat (l.drop (l.length - 2)) : ℚ)] ++
        (if l.length = 3 then
          [(digitsToNat (l.take 2) : ℚ) + (digitsToNat (l.drop 2) : ℚ) / 10]
        else [])).filter (fun c => decide (c ≤ TEMP_MAX)))).filter
          (fun v => decide (|v - (⌊v⌋ : ℚ)| > 1 / 1000000000))) =
      (((([(digitsToNat (l.take 2) : ℚ), (digitsToNat (l.drop (l.length - 2)) : ℚ)] ++
        (if l.length = 3 then
          [(digitsToNat (l.take 2) : ℚ) + (digitsToNat (l.drop 2) : ℚ) / 10]
        else [])).filter (fun c => decide (c ≤ TEMP_MAX)))).filter
          (fun v => decide (Int.fract v ≠ 0))) := by
    apply List.filter_congr
    intro v hv
    have hvc := (List.mem_filter.mp hv).1
    rw [decide_eq_decide]
    rcases List.mem_append.mp hvc with hv2 | hv3
    · rcases List.mem_cons.mp hv2 with rfl | hv2'
      · exact frac_pred_equiv _ (10 * (digitsToNat (l.take 2) : ℤ)) (by push_cast; ring)
      · rcases List.mem_cons.mp hv2' with rfl | hv2''
        · exact frac_pred_equiv _ (10 * (digitsToNat (l.drop (l.length - 2)) : ℤ))
            (by push_cast; ring)
        · simp at hv2''
    · by_cases h3l : l.length = 3
      · rw [if_pos h3l] at hv3
        rcases List.mem_cons.mp hv3 with rfl | hv3'
        · exact frac_pred_equiv _
            (10 * (digitsToNat (l.take 2) : ℤ) + (digitsToNat (l.drop 2) : ℤ))
            (by push_cast; ring)
        · simp at hv3'
      · rw [if_neg h3l] at hv3
        simp at hv3
  rw [hcongr]
  exact temp_tail_eq _

/-- C3: on every pure-digit numeric string of length ≥ 3, `repair_temp`
agrees with the claim's candidate cascade (first-two-digit integer,
last-two-digit integer, and for length 3 the first-two-point-third decimal;
filter to ≤ 80.0; first candidate with a non-trivial fractional part, else
the minimum survivor, else `none`); in particular
`repair_temp("375") = 37.5`. -/
theorem repair_temp_pure_digits_spec :
    (∀ s : String, s.data.all Char.isDigit = true → 3 ≤ s.data.length →
      repair_temp s = repair_temp_spec s) ∧
    repair_temp "375" = some (75 / 2) := by
  refine ⟨fun s hall hlen => ?_, by with_unfolding_all decide⟩
  obtain ⟨l⟩ := s
  exact repair_temp_eq_spec_of_digits hall hlen

/-- Witness for C3 at the pure-digit string `"375"`. -/
theorem repair_temp_pure_digits_spec_witness :
    repair_temp "375" = repair_temp_spec "375" :=
  repair_temp_pure_digits_spec.1 "375" (by with_unfolding_all decide)
    (by with_unfolding_all decide)

end OcrCore
